import Mathlib

/-!
Shallow embedding of the stone-os core (Go) for checking the spec's claims.

Conventions used throughout:
- instants (Go `time.Time`) are `Nat` nanosecond counts; every place the Go
  code calls `time.Now()` the embedding takes the clock value as an explicit
  `now` argument;
- Go byte slices (`[]byte`) are embedded as `String`;
- the SQL substrate is embedded relationally: a table is a `List` of typed
  rows, a `SELECT` is a filter plus the ordering requested by `ORDER BY`, and
  a statement that references a column absent from the table's schema fails at
  prepare time, exactly as SQLite and PostgreSQL reject it;
- JSON (de)serialisation of metadata is assumed faithful: the `metadata`
  column holds the structured record directly (a `NULL` column models a
  failed unmarshal of absent metadata).
-/

namespace StoneOS

/-! ## Path model: Go `path/filepath` (Unix rules), used by pkg/filesystem/file.go

`filepath.Clean` is the lexical normaliser: it splits the path into
slash-separated segments, drops empty and `.` segments, resolves `..`
against a segment stack (dropping `..` at the root of an absolute path,
keeping leading `..` runs of a relative path), and re-renders, answering
`.` for an empty relative result and `/` for an empty absolute one. -/

/-- The one-character segment `.`. -/
def dotSeg : List Char := ['.']

/-- The two-character segment `..`. -/
def dotDotSeg : List Char := ['.', '.']

/-- Splits a character list into its nonempty slash-separated segments;
`cur` accumulates the (reversed) segment being read. -/
def splitSegsAux : List Char → List Char → List (List Char)
  | cur, [] => if cur = [] then [] else [cur.reverse]
  | cur, c :: cs =>
    if c = '/' then
      if cur = [] then splitSegsAux [] cs else cur.reverse :: splitSegsAux [] cs
    else splitSegsAux (c :: cur) cs

/-- The nonempty slash-separated segments of a path's characters. -/
def segsOf (cs : List Char) : List (List Char) := splitSegsAux [] cs

/-- Joins segments with single slashes (no leading or trailing slash). -/
def joinSegs : List (List Char) → List Char
  | [] => []
  | [s] => s
  | s :: rest => s ++ '/' :: joinSegs rest

/-- One step of `filepath.Clean`'s segment processing: `.` is dropped, `..`
pops a non-`..` top (is dropped at the root of an absolute path and kept
atop a `..`-run of a relative one), anything else is pushed. The stack's
head is its top. -/
def pushSeg (abs : Bool) (stk : List (List Char)) (seg : List Char) : List (List Char) :=
  if seg = dotSeg then stk
  else if seg = dotDotSeg then
    match stk with
    | [] => if abs then [] else [dotDotSeg]
    | top :: rest => if top = dotDotSeg then dotDotSeg :: (top :: rest) else rest
  else seg :: stk

/-- Processes all segments through `pushSeg` and restores left-to-right order. -/
def procSegs (abs : Bool) (segs : List (List Char)) : List (List Char) :=
  (segs.foldl (pushSeg abs) []).reverse

/-- Renders processed segments back into a path, with `filepath.Clean`'s
conventions for the empty result. -/
def renderSegs (abs : Bool) : List (List Char) → List Char
  | [] => if abs then ['/'] else ['.']
  | s :: rest => (if abs then ['/'] else []) ++ joinSegs (s :: rest)

/-- `filepath.Clean` over a character list. -/
def cleanChars (cs : List Char) : List Char :=
  if cs = [] then dotSeg
  else if cs.head? = some '/' then renderSegs true (procSegs true (segsOf cs))
  else renderSegs false (procSegs false (segsOf cs))

/-- Go's `filepath.Clean` (Unix rules): the shortest lexical equivalent path. -/
def filepathClean (s : String) : String := ⟨cleanChars s.data⟩

/-- Go's `filepath.Split`: everything up to and including the final slash,
and the remainder; `("", path)` when the path has no slash. -/
def filepathSplit (s : String) : String × String :=
  let name := (s.data.reverse.takeWhile (fun c => !(c = '/' : Bool))).reverse
  (⟨s.data.take (s.data.length - name.length)⟩, ⟨name⟩)

/-! ### Idempotence of `filepathClean`

`filepath.Clean`'s output is already clean, so cleaning twice equals
cleaning once. This backs the path-normalisation claims about the
`FileManager` operations, which all clean their argument first. -/

/-- A segment produced by splitting: nonempty and slash-free. -/
def goodSeg (s : List Char) : Prop := s ≠ [] ∧ '/' ∉ s

/-- A segment that survives processing outside a leading `..`-run:
good, and neither `.` nor `..`. -/
def normSeg (s : List Char) : Prop := goodSeg s ∧ s ≠ dotSeg ∧ s ≠ dotDotSeg

theorem splitSegsAux_noslash : ∀ (s cur : List Char), '/' ∉ s → cur.reverse ++ s ≠ [] →
    splitSegsAux cur s = [cur.reverse ++ s]
  | [], cur, _, hne => by
    have hcur : cur ≠ [] := by
      intro h; subst h; simp at hne
    simp [splitSegsAux, hcur]
  | c :: cs, cur, hns, _ => by
    have hc : ¬(c = '/') := fun h => hns (h ▸ List.mem_cons_self c cs)
    have hns' : '/' ∉ cs := fun h => hns (List.mem_cons_of_mem c h)
    have hne' : (c :: cur).reverse ++ cs ≠ [] := by simp
    simp only [splitSegsAux, if_neg hc]
    rw [splitSegsAux_noslash cs (c :: cur) hns' hne']
    simp

theorem splitSegsAux_slash : ∀ (s cur t : List Char), '/' ∉ s → cur.reverse ++ s ≠ [] →
    splitSegsAux cur (s ++ '/' :: t) = (cur.reverse ++ s) :: splitSegsAux [] t
  | [], cur, t, _, hne => by
    have hcur : cur ≠ [] := by
      intro h; subst h; simp at hne
    simp [splitSegsAux, hcur]
  | c :: cs, cur, t, hns, _ => by
    have hc : ¬(c = '/') := fun h => hns (h ▸ List.mem_cons_self c cs)
    have hns' : '/' ∉ cs := fun h => hns (List.mem_cons_of_mem c h)
    have hne' : (c :: cur).reverse ++ cs ≠ [] := by simp
    simp only [List.cons_append, splitSegsAux, if_neg hc, List.append_eq]
    rw [splitSegsAux_slash cs (c :: cur) t hns' hne']
    simp

theorem joinSegs_cons₂ (s t : List Char) (r : List (List Char)) :
    joinSegs (s :: t :: r) = s ++ '/' :: joinSegs (t :: r) := rfl

theorem segsOf_joinSegs : ∀ (l : List (List Char)), (∀ s ∈ l, goodSeg s) →
    segsOf (joinSegs l) = l
  | [], _ => rfl
  | [s], h => by
    have hs := h s (by simp)
    show splitSegsAux [] (joinSegs [s]) = [s]
    have : joinSegs [s] = s := rfl
    rw [this, splitSegsAux_noslash s [] hs.2 (by simpa using hs.1)]
    simp
  | s :: t :: rest, h => by
    have hs := h s (by simp)
    show splitSegsAux [] (joinSegs (s :: t :: rest)) = s :: t :: rest
    rw [joinSegs_cons₂, splitSegsAux_slash s [] _ hs.2 (by simpa using hs.1)]
    have : splitSegsAux [] (joinSegs (t :: rest)) = segsOf (joinSegs (t :: rest)) := rfl
    rw [this, segsOf_joinSegs (t :: rest) (fun x hx => h x (List.mem_cons_of_mem s hx))]
    simp

theorem goodSeg_splitSegsAux : ∀ (cs cur : List Char), '/' ∉ cur →
    ∀ s ∈ splitSegsAux cur cs, goodSeg s
  | [], cur, hcur => by
    intro s hs
    by_cases h : cur = []
    · simp [splitSegsAux, h] at hs
    · rw [splitSegsAux, if_neg h] at hs
      simp only [List.mem_singleton] at hs
      subst hs
      exact ⟨by simpa using h, by simpa using hcur⟩
  | c :: cs, cur, hcur => by
    intro s hs
    by_cases hc : c = '/'
    · rw [splitSegsAux, if_pos hc] at hs
      by_cases h : cur = []
      · rw [if_pos h] at hs
        exact goodSeg_splitSegsAux cs [] (by simp) s hs
      · rw [if_neg h] at hs
        rcases List.mem_cons.mp hs with h1 | h2
        · subst h1
          exact ⟨by simpa using h, by simpa using hcur⟩
        · exact goodSeg_splitSegsAux cs [] (by simp) s h2
    · rw [splitSegsAux, if_neg hc] at hs
      refine goodSeg_splitSegsAux cs (c :: cur) ?_ s hs
      intro h
      rcases List.mem_cons.mp h with h1 | h2
      · exact hc h1.symm
      · exact hcur h2

theorem goodSeg_segsOf (cs : List Char) : ∀ s ∈ segsOf cs, goodSeg s :=
  goodSeg_splitSegsAux cs [] (by simp)

/-- Invariant of the `pushSeg` stack: a run of normal segments atop a run of
`..` segments, the latter empty for absolute paths. -/
def stkOK (abs : Bool) (stk : List (List Char)) : Prop :=
  ∃ front m, stk = front ++ List.replicate m dotDotSeg ∧
    (∀ s ∈ front, normSeg s) ∧ (abs = true → m = 0)

theorem goodSeg_dotDot : goodSeg dotDotSeg := by
  constructor <;> simp [dotDotSeg]

theorem stkOK_pushSeg {abs : Bool} {stk : List (List Char)} (h : stkOK abs stk)
    {seg : List Char} (hg : goodSeg seg) : stkOK abs (pushSeg abs stk seg) := by
  obtain ⟨front, m, rfl, hfront, habs⟩ := h
  by_cases hd : seg = dotSeg
  · rw [pushSeg.eq_def, if_pos hd]
    exact ⟨front, m, rfl, hfront, habs⟩
  by_cases hdd : seg = dotDotSeg
  · rw [pushSeg.eq_def, if_neg hd, if_pos hdd]
    cases front with
    | nil =>
      cases m with
      | zero =>
        simp only [List.replicate_zero, List.nil_append]
        cases abs with
        | true => exact ⟨[], 0, by simp, by simp, fun _ => rfl⟩
        | false => exact ⟨[], 1, by simp, by simp, by simp⟩
      | succ m =>
        have habs' : abs = false := by
          cases abs with
          | true => exact absurd (habs rfl) (by simp)
          | false => rfl
        simp only [List.nil_append, List.replicate_succ]
        simp only [if_true, reduceIte]
        exact ⟨[], m + 2, by simp [List.replicate_succ], by simp, by simp [habs']⟩
    | cons f front' =>
      have hf := hfront f (by simp)
      simp only [List.cons_append]
      rw [if_neg hf.2.2]
      exact ⟨front', m, rfl, fun s hs => hfront s (by simp [hs]), habs⟩
  · rw [pushSeg.eq_def, if_neg hd, if_neg hdd]
    exact ⟨seg :: front, m, by simp, by
      intro s hs
      rcases List.mem_cons.mp hs with h1 | h2
      · subst h1; exact ⟨hg, hd, hdd⟩
      · exact hfront s h2, habs⟩

theorem stkOK_foldl {abs : Bool} : ∀ (segs stk : List (List Char)), stkOK abs stk →
    (∀ s ∈ segs, goodSeg s) → stkOK abs (segs.foldl (pushSeg abs) stk)
  | [], stk, h, _ => h
  | s :: rest, stk, h, hg => by
    rw [List.foldl_cons]
    exact stkOK_foldl rest _ (stkOK_pushSeg h (hg s (by simp)))
      (fun x hx => hg x (by simp [hx]))

/-- Shape of `procSegs`'s output: a leading `..`-run (absent for absolute
paths) followed by normal segments. -/
def outOK (abs : Bool) (out : List (List Char)) : Prop :=
  ∃ m back, out = List.replicate m dotDotSeg ++ back ∧
    (∀ s ∈ back, normSeg s) ∧ (abs = true → m = 0)

theorem outOK_procSegs (abs : Bool) (segs : List (List Char))
    (h : ∀ s ∈ segs, goodSeg s) : outOK abs (procSegs abs segs) := by
  obtain ⟨front, m, heq, hfront, habs⟩ :=
    stkOK_foldl segs [] ⟨[], 0, by simp, by simp, fun _ => rfl⟩ h
  refine ⟨m, front.reverse, ?_, ?_, habs⟩
  · rw [procSegs, heq, List.reverse_append, List.reverse_replicate]
  · intro s hs
    exact hfront s (List.mem_reverse.mp hs)

theorem pushSeg_norm {abs : Bool} {stk : List (List Char)} {s : List Char}
    (hn : normSeg s) : pushSeg abs stk s = s :: stk := by
  rw [pushSeg.eq_def, if_neg hn.2.1, if_neg hn.2.2]

theorem foldl_pushSeg_norm {abs : Bool} : ∀ (back stk : List (List Char)),
    (∀ s ∈ back, normSeg s) → back.foldl (pushSeg abs) stk = back.reverse ++ stk
  | [], stk, _ => by simp
  | s :: rest, stk, h => by
    rw [List.foldl_cons, pushSeg_norm (h s (by simp)),
      foldl_pushSeg_norm rest (s :: stk) (fun x hx => h x (by simp [hx]))]
    simp

theorem pushSeg_dd_rel (k : Nat) :
    pushSeg false (List.replicate k dotDotSeg) dotDotSeg = List.replicate (k + 1) dotDotSeg := by
  have hd : ¬(dotDotSeg = dotSeg) := by simp [dotSeg, dotDotSeg]
  cases k with
  | zero => simp [pushSeg.eq_def, hd]
  | succ k =>
    rw [pushSeg.eq_def, if_neg hd, if_pos rfl, List.replicate_succ]
    simp [List.replicate_succ]

theorem foldl_pushSeg_dd : ∀ (m k : Nat),
    (List.replicate m dotDotSeg).foldl (pushSeg false) (List.replicate k dotDotSeg) =
      List.replicate (k + m) dotDotSeg
  | 0, k => by simp
  | m + 1, k => by
    rw [List.replicate_succ, List.foldl_cons, pushSeg_dd_rel k, foldl_pushSeg_dd m (k + 1)]
    congr 1
    omega

theorem procSegs_fixed {abs : Bool} {out : List (List Char)} (h : outOK abs out) :
    procSegs abs out = out := by
  obtain ⟨m, back, rfl, hback, habs⟩ := h
  rw [procSegs, List.foldl_append]
  cases abs with
  | true =>
    rw [habs rfl]
    simp only [List.replicate_zero, List.foldl_nil]
    rw [foldl_pushSeg_norm back [] hback]
    simp [habs rfl]
  | false =>
    have h1 : (List.replicate m dotDotSeg).foldl (pushSeg false) [] =
        List.replicate m dotDotSeg := by
      have := foldl_pushSeg_dd m 0
      simpa using this
    rw [h1, foldl_pushSeg_norm back _ hback, List.reverse_append, List.reverse_reverse,
      List.reverse_replicate]

theorem joinSegs_good_head : ∀ (l : List (List Char)), (∀ s ∈ l, goodSeg s) → l ≠ [] →
    joinSegs l ≠ [] ∧ (joinSegs l).head? ≠ some '/'
  | [], _, hne => absurd rfl hne
  | [s], h, _ => by
    have hs := h s (by simp)
    have : joinSegs [s] = s := rfl
    rw [this]
    cases s with
    | nil => exact absurd rfl hs.1
    | cons c s' =>
      have hc : ¬(c = '/') := fun hc => hs.2 (hc ▸ List.mem_cons_self c s')
      refine ⟨by simp, ?_⟩
      simp only [List.head?_cons, ne_eq, Option.some.injEq]
      exact hc
  | s :: t :: rest, h, _ => by
    have hs := h s (by simp)
    rw [joinSegs_cons₂]
    cases s with
    | nil => exact absurd rfl hs.1
    | cons c s' =>
      have hc : ¬(c = '/') := fun hc => hs.2 (hc ▸ List.mem_cons_self c s')
      refine ⟨by simp, ?_⟩
      simp only [List.cons_append, List.head?_cons, ne_eq, Option.some.injEq]
      exact hc

theorem renderSegs_true_spec (l : List (List Char)) (hl : ∀ s ∈ l, goodSeg s) :
    renderSegs true l ≠ [] ∧ (renderSegs true l).head? = some '/' ∧
      segsOf (renderSegs true l) = l := by
  cases l with
  | nil =>
    refine ⟨by simp [renderSegs], by simp [renderSegs], ?_⟩
    rfl
  | cons s rest =>
    refine ⟨by simp [renderSegs], by simp [renderSegs], ?_⟩
    show splitSegsAux [] ('/' :: joinSegs (s :: rest)) = s :: rest
    rw [splitSegsAux, if_pos rfl, if_pos rfl]
    exact segsOf_joinSegs (s :: rest) hl

theorem renderSegs_false_spec (l : List (List Char)) (hl : ∀ s ∈ l, goodSeg s)
    (hne : l ≠ []) :
    renderSegs false l ≠ [] ∧ (renderSegs false l).head? ≠ some '/' ∧
      segsOf (renderSegs false l) = l := by
  cases l with
  | nil => exact absurd rfl hne
  | cons s rest =>
    obtain ⟨h1, h2⟩ := joinSegs_good_head (s :: rest) hl (by simp)
    have hr : renderSegs false (s :: rest) = joinSegs (s :: rest) := by
      simp [renderSegs]
    refine ⟨by rw [hr]; exact h1, by rw [hr]; exact h2, ?_⟩
    rw [hr]
    exact segsOf_joinSegs (s :: rest) hl

theorem cleanChars_dot : cleanChars dotSeg = dotSeg := rfl

theorem cleanChars_idem (cs : List Char) : cleanChars (cleanChars cs) = cleanChars cs := by
  by_cases h0 : cs = []
  · subst h0
    rfl
  · have hgood := goodSeg_segsOf cs
    by_cases habs : cs.head? = some '/'
    · have hcs : cleanChars cs = renderSegs true (procSegs true (segsOf cs)) := by
        rw [cleanChars, if_neg h0, if_pos habs]
      obtain ⟨m, back, heq, hback, h0'⟩ := outOK_procSegs true (segsOf cs) hgood
      rw [h0' rfl] at heq
      simp only [List.replicate_zero, List.nil_append] at heq
      rw [hcs, heq]
      have hbgood : ∀ s ∈ back, goodSeg s := fun s hs => (hback s hs).1
      obtain ⟨hne, hhd, hsegs⟩ := renderSegs_true_spec back hbgood
      rw [cleanChars, if_neg hne, if_pos hhd, hsegs,
        procSegs_fixed ⟨0, back, by simp, hback, fun _ => rfl⟩]
    · have hcs : cleanChars cs = renderSegs false (procSegs false (segsOf cs)) := by
        rw [cleanChars, if_neg h0, if_neg habs]
      obtain ⟨m, back, heq, hback, _⟩ := outOK_procSegs false (segsOf cs) hgood
      by_cases hout : procSegs false (segsOf cs) = []
      · rw [hcs, hout]
        rfl
      · have hogood : ∀ s ∈ procSegs false (segsOf cs), goodSeg s := by
          rw [heq]
          intro s hs
          rcases List.mem_append.mp hs with h1 | h2
          · rw [List.eq_of_mem_replicate h1]
            exact goodSeg_dotDot
          · exact (hback s h2).1
        obtain ⟨hne, hhd, hsegs⟩ :=
          renderSegs_false_spec (procSegs false (segsOf cs)) hogood hout
        rw [hcs, cleanChars, if_neg hne, if_neg hhd, hsegs,
          procSegs_fixed ⟨m, back, heq, hback, by simp⟩]

/-- `filepath.Clean` is idempotent: its output is already clean. -/
theorem filepathClean_idem (s : String) : filepathClean (filepathClean s) = filepathClean s :=
  congrArg String.mk (cleanChars_idem s.data)

/-! ## Data model: pkg/schema (applyInitialSchema and types.go) -/

/-- `schema.ResourceMetadata` (part_002): the JSON document stored in the
`metadata` column. -/
structure ResourceMetadata where
  permissions : Nat
  owner : String
  group : String
  createdAt : Nat
  modifiedAt : Nat
  accessedAt : Nat
  size : Nat
  mimeType : String
  isExecutable : Bool
  isHidden : Bool
  isSystem : Bool
  checksum : String
  symlinkTarget : String
  deriving DecidableEq, Repr

/-- `schema.NewResourceMetadata(owner)` at clock value `now`. -/
def NewResourceMetadata (owner : String) (now : Nat) : ResourceMetadata :=
  { permissions := 0o644, owner := owner, group := "users", createdAt := now,
    modifiedAt := now, accessedAt := now, size := 0, mimeType := "",
    isExecutable := false, isHidden := false, isSystem := false,
    checksum := "", symlinkTarget := "" }

/-- `schema.NewDirectoryMetadata(owner)` at clock value `now`. -/
def NewDirectoryMetadata (owner : String) (now : Nat) : ResourceMetadata :=
  { NewResourceMetadata owner now with permissions := 0o755 }

/-- One row of the `resources` table created by `applyInitialSchema`
(src/unnamed/part_001): columns id, type, name, parent_id, path, content,
metadata, valid_from, valid_to, transaction_id — and, notably, no
branch_id column. -/
structure ResourceRow where
  id : String
  type : String
  name : String
  parent_id : Option String
  path : String
  content : Option String
  metadata : Option ResourceMetadata
  valid_from : Nat
  valid_to : Option Nat
  transaction_id : String
  deriving DecidableEq, Repr

/-- The column names of the `resources` table, copied from the
`CREATE TABLE resources` statement in `applyInitialSchema`. -/
def resourcesColumns : List String :=
  ["id", "type", "name", "parent_id", "path", "content", "metadata",
   "valid_from", "valid_to", "transaction_id"]

/-- The `resources` schema carries no `branch_id` column; every query string
that mentions one fails to prepare. -/
theorem branch_id_not_a_resources_column : "branch_id" ∉ resourcesColumns := by decide

/-- One row of the `transactions` table created by `applyInitialSchema`. -/
structure TxRecord where
  id : String
  start_time : Nat
  end_time : Option Nat
  status : String
  user_id : String
  branch_id : String
  deriving DecidableEq, Repr

/-! ### Byte-wise string comparison

SQLite's default BINARY collation orders TEXT values byte-wise; on UTF-8
that is code-point order, i.e. lexicographic comparison of the character
lists. The boolean comparator below implements it (and, unlike the core
`String` order, evaluates by kernel reduction). -/

/-- Lexicographic strict order on character lists. -/
def lexLtB : List Char → List Char → Bool
  | [], [] => false
  | [], _ :: _ => true
  | _ :: _, [] => false
  | a :: as, b :: bs => if a < b then true else if b < a then false else lexLtB as bs

/-- Strict byte-wise order on strings. -/
def strLt (a b : String) : Prop := lexLtB a.data b.data = true

/-- Byte-wise `≤` on strings: `b` is not strictly below `a`. -/
def strLe (a b : String) : Prop := lexLtB b.data a.data = false

instance : DecidableRel strLt := fun a b => by
  unfold strLt
  infer_instance

instance : DecidableRel strLe := fun a b => by
  unfold strLe
  infer_instance

theorem lexLtB_cons (a b : Char) (as bs : List Char) :
    lexLtB (a :: as) (b :: bs) = true ↔ a < b ∨ (a = b ∧ lexLtB as bs = true) := by
  simp only [lexLtB]
  by_cases h1 : a < b
  · simp [h1]
  · by_cases h2 : b < a
    · rw [if_neg h1, if_pos h2]
      simp only [Bool.false_eq_true, false_iff]
      rintro (h | ⟨rfl, -⟩)
      · exact h1 h
      · exact lt_irrefl _ h2
    · have heq : a = b := le_antisymm (not_lt.mp h2) (not_lt.mp h1)
      rw [if_neg h1, if_neg h2]
      simp [h1, heq]

theorem lexLtB_irrefl : ∀ as, lexLtB as as = false
  | [] => rfl
  | a :: as => by simp [lexLtB, lt_irrefl, lexLtB_irrefl as]

theorem lexLtB_trans : ∀ {as bs cs : List Char}, lexLtB as bs = true →
    lexLtB bs cs = true → lexLtB as cs = true
  | [], [], _, h1, _ => by simp [lexLtB] at h1
  | [], _ :: _, [], _, h2 => by simp [lexLtB] at h2
  | [], _ :: _, _ :: _, _, _ => rfl
  | _ :: _, [], _, h1, _ => by simp [lexLtB] at h1
  | _ :: _, _ :: _, [], _, h2 => by simp [lexLtB] at h2
  | a :: as, b :: bs, c :: cs, h1, h2 => by
    rw [lexLtB_cons] at h1 h2 ⊢
    rcases h1 with h1 | ⟨e1, h1'⟩ <;> rcases h2 with h2 | ⟨e2, h2'⟩
    · exact Or.inl (h1.trans h2)
    · exact Or.inl (e2 ▸ h1)
    · exact Or.inl (by rw [e1]; exact h2)
    · exact Or.inr ⟨e1.trans e2, lexLtB_trans h1' h2'⟩

theorem lexLtB_asymm {as bs : List Char} (h : lexLtB as bs = true) :
    lexLtB bs as = false := by
  by_contra hc
  have h2 : lexLtB bs as = true := by
    cases hcase : lexLtB bs as
    · exact absurd hcase hc
    · rfl
  have := lexLtB_trans h h2
  rw [lexLtB_irrefl] at this
  exact absurd this (by simp)

theorem lexLtB_eq_of_not : ∀ (as bs : List Char), lexLtB as bs = false →
    lexLtB bs as = false → as = bs
  | [], [], _, _ => rfl
  | [], _ :: _, h1, _ => by simp [lexLtB] at h1
  | _ :: _, [], _, h2 => by simp [lexLtB] at h2
  | a :: as, b :: bs, h1, h2 => by
    have h1t : ¬(a < b ∨ (a = b ∧ lexLtB as bs = true)) := by
      rw [← lexLtB_cons]
      simp [h1]
    have h2t : ¬(b < a ∨ (b = a ∧ lexLtB bs as = true)) := by
      rw [← lexLtB_cons]
      simp [h2]
    have hab : ¬(a < b) := fun h => h1t (Or.inl h)
    have hba : ¬(b < a) := fun h => h2t (Or.inl h)
    have heq : a = b := le_antisymm (not_lt.mp hba) (not_lt.mp hab)
    have has : lexLtB as bs = false := by
      cases hcase : lexLtB as bs
      · rfl
      · exact absurd (Or.inr ⟨heq, hcase⟩) h1t
    have hbs : lexLtB bs as = false := by
      cases hcase : lexLtB bs as
      · rfl
      · exact absurd (Or.inr ⟨heq.symm, hcase⟩) h2t
    rw [heq, lexLtB_eq_of_not as bs has hbs]

theorem strLt_trichotomy (a b : String) : strLt a b ∨ a = b ∨ strLt b a := by
  unfold strLt
  cases h1 : lexLtB a.data b.data
  · cases h2 : lexLtB b.data a.data
    · refine Or.inr (Or.inl ?_)
      have := lexLtB_eq_of_not a.data b.data h1 h2
      cases a
      cases b
      exact congrArg String.mk this
    · exact Or.inr (Or.inr rfl)
  · exact Or.inl rfl

theorem strLe_total (a b : String) : strLe a b ∨ strLe b a := by
  unfold strLe
  cases h : lexLtB a.data b.data
  · exact Or.inr rfl
  · exact Or.inl (lexLtB_asymm h)

theorem strLe_trans {a b c : String} (h1 : strLe a b) (h2 : strLe b c) :
    strLe a c := by
  unfold strLe at *
  by_contra hc
  have hca : lexLtB c.data a.data = true := by
    cases hcase : lexLtB c.data a.data
    · exact absurd hcase hc
    · rfl
  cases hab : lexLtB a.data b.data
  · have : a.data = b.data := lexLtB_eq_of_not a.data b.data hab h1
    rw [this] at hca
    rw [hca] at h2
    exact absurd h2 (by simp)
  · have := lexLtB_trans hca hab
    rw [this] at h2
    exact absurd h2 (by simp)

/-! ## Query layer: pkg/database (query.go) -/

/-- `database.QueryOptions`. -/
structure QueryOptions where
  pointInTime : Option Nat
  branchID : String
  includeDeleted : Bool
  limit : Nat
  offsetVal : Nat
  orderBy : String
  orderDirection : String
  temporalCondition : String
  deriving DecidableEq, Repr

/-- `database.DefaultQueryOptions()`. -/
def DefaultQueryOptions : QueryOptions :=
  { pointInTime := none, branchID := "main", includeDeleted := false,
    limit := 0, offsetVal := 0, orderBy := "name", orderDirection := "ASC",
    temporalCondition := "AS OF" }

/-- Options that make `applyQueryOptions` append nothing, leaving the base
statement intact. Used to exercise read paths whose option-generated
suffixes would otherwise fail to prepare. -/
def unfilteredOptions : QueryOptions :=
  { DefaultQueryOptions with branchID := "", orderBy := "" }

/-- Ascending byte-wise order on a row's `name` column. -/
def nameAsc (a b : ResourceRow) : Prop := strLe a.name b.name

/-- Descending byte-wise order on a row's `name` column. -/
def nameDesc (a b : ResourceRow) : Prop := strLe b.name a.name

instance : DecidableRel nameAsc := fun a b => by
  unfold nameAsc
  infer_instance

instance : DecidableRel nameDesc := fun a b => by
  unfold nameDesc
  infer_instance

/-- The ordering `applyQueryOptions` requests via ` ORDER BY <col> <dir>`:
the code only ever asks for the `name` key (`DefaultQueryOptions`), so only
that key is interpreted; an empty key appends no clause. -/
def applyOrder (o : QueryOptions) (rows : List ResourceRow) : List ResourceRow :=
  if o.orderBy = "name" then
    if o.orderDirection = "DESC" then List.insertionSort nameDesc rows
    else List.insertionSort nameAsc rows
  else rows

/-- ` LIMIT n` (and ` OFFSET m` when positive) as appended by
`applyQueryOptions`. -/
def applyLimitOffset (o : QueryOptions) (rows : List ResourceRow) : List ResourceRow :=
  if o.limit > 0 then
    if o.offsetVal > 0 then (rows.drop o.offsetVal).take o.limit
    else rows.take o.limit
  else rows

/-- Runs one of the fixed `SELECT ... FROM resources WHERE <base>` statements
of pkg/filesystem/file.go after `applyQueryOptions` (query.go) has appended
its suffixes. The suffixes can break the statement:

- a set `PointInTime` with the default `"AS OF"` temporal condition appends
  ` AS OF SYSTEM TIME '...'`, which neither SQLite nor PostgreSQL parses;
- a nonempty `BranchID` appends ` AND branch_id = '<branch>'`, and the
  resources table has no `branch_id` column
  (`branch_id_not_a_resources_column`), so the statement fails to prepare;
- a nonempty `OrderBy` naming a column outside `resourcesColumns` likewise
  fails to prepare.

Otherwise the statement filters, orders and limits relationally. -/
def runResourceSelect (rows : List ResourceRow) (base : ResourceRow → Bool)
    (o : QueryOptions) : Except String (List ResourceRow) :=
  if o.pointInTime.isSome ∧ o.temporalCondition = "AS OF" then
    .error "near AS: syntax error"
  else if o.branchID ≠ "" then .error "no such column: branch_id"
  else if o.orderBy ≠ "" ∧ o.orderBy ∉ resourcesColumns then
    .error ("no such column: " ++ o.orderBy)
  else .ok (applyLimitOffset o (applyOrder o (rows.filter base)))

/-! ## Transaction model: pkg/database/transaction.go

A Go `Transaction` wraps a `*sql.Tx`; the writes it has issued but not yet
committed live inside the SQL engine. The embedding carries them as a list
of pending mutations: the two statement shapes the repository executes
against `resources` are the plain `INSERT` and the
`UPDATE ... SET valid_to = $1 WHERE id = $2 AND valid_to IS NULL`. -/

/-- The status strings of transaction.go lines 12-16. The third constant is
`"rolled_back"` (`TransactionStatusRolledBack`), while the sibling schema
package and the spec call the state `"aborted"`. -/
def TransactionStatusActive : String := "active"

/-- See `TransactionStatusActive`. -/
def TransactionStatusCommitted : String := "committed"

/-- See `TransactionStatusActive`. -/
def TransactionStatusRolledBack : String := "rolled_back"

/-- A pending write staged inside a transaction. -/
inductive Mutation
  | insertRow (r : ResourceRow)
  | closeInterval (id : String) (t : Nat)
  deriving DecidableEq, Repr

/-- Applies one staged write to the table. -/
def applyMutation (store : List ResourceRow) : Mutation → List ResourceRow
  | .insertRow r => store ++ [r]
  | .closeInterval i t =>
    store.map fun r =>
      if r.id = i ∧ r.valid_to = none then { r with valid_to := some t } else r

/-- `database.Transaction`: id, times, status, savepoints, branch and user
tags, plus the staged writes held by the underlying SQL transaction. A
savepoint remembers its creation time (the Go map value) and the staged
length at creation (the engine-side marker). -/
structure DbTransaction where
  id : String
  startTime : Nat
  endTime : Nat
  status : String
  savepoints : List (String × Nat × Nat)
  branchID : String
  userID : String
  staged : List Mutation
  deriving DecidableEq, Repr

/-- `Connection.Begin` followed by the shell's `SetBranchID`/`SetUserID`:
a fresh active transaction with no savepoints and nothing staged. -/
def beginTransaction (id : String) (now : Nat) (branch user : String) : DbTransaction :=
  { id := id, startTime := now, endTime := 0, status := TransactionStatusActive,
    savepoints := [], branchID := branch, userID := user, staged := [] }

/-- What a read through this transaction observes: committed rows plus the
transaction's own staged writes (the SQL engine's read-your-writes view). -/
def txView (committed : List ResourceRow) (t : DbTransaction) : List ResourceRow :=
  t.staged.foldl applyMutation committed

/-- `Transaction.Execute` for the two resource-mutating statement shapes:
refused unless the transaction is active, otherwise the write is staged. -/
def txExecute (t : DbTransaction) (m : Mutation) : Except String DbTransaction :=
  if t.status ≠ TransactionStatusActive then
    .error ("transaction is not active (status: " ++ t.status ++ ")")
  else .ok { t with staged := t.staged ++ [m] }

/-- `Transaction.Commit`: refused unless active; otherwise the staged writes
become durable, the status flips to committed and the end time is set. No
validation of any kind is performed against the committed store. -/
def txCommit (committed : List ResourceRow) (t : DbTransaction) (now : Nat) :
    Except String (List ResourceRow × DbTransaction) :=
  if t.status ≠ TransactionStatusActive then
    .error ("transaction is not active (status: " ++ t.status ++ ")")
  else
    .ok (t.staged.foldl applyMutation committed,
      { t with status := TransactionStatusCommitted, endTime := now })

/-- `Transaction.Rollback`: refused unless active; otherwise the staged
writes are discarded by the SQL engine and the status flips to
`"rolled_back"`. -/
def txRollback (t : DbTransaction) (now : Nat) : Except String DbTransaction :=
  if t.status ≠ TransactionStatusActive then
    .error ("transaction is not active (status: " ++ t.status ++ ")")
  else
    .ok { t with status := TransactionStatusRolledBack, endTime := now, staged := [] }

/-- `Transaction.Savepoint`. -/
def txSavepoint (t : DbTransaction) (name : String) (now : Nat) :
    Except String DbTransaction :=
  if t.status ≠ TransactionStatusActive then
    .error ("transaction is not active (status: " ++ t.status ++ ")")
  else
    .ok { t with savepoints :=
      (name, now, t.staged.length) :: t.savepoints.filter (fun p => p.1 ≠ name) }

/-- `Transaction.RollbackToSavepoint`: the engine discards the writes staged
after the marker. -/
def txRollbackToSavepoint (t : DbTransaction) (name : String) :
    Except String DbTransaction :=
  if t.status ≠ TransactionStatusActive then
    .error ("transaction is not active (status: " ++ t.status ++ ")")
  else
    match t.savepoints.find? (fun p => p.1 = name) with
    | none => .error ("savepoint does not exist: " ++ name)
    | some p => .ok { t with staged := t.staged.take p.2.2 }

/-- `Transaction.ReleaseSavepoint`. -/
def txReleaseSavepoint (t : DbTransaction) (name : String) :
    Except String DbTransaction :=
  if t.status ≠ TransactionStatusActive then
    .error ("transaction is not active (status: " ++ t.status ++ ")")
  else
    match t.savepoints.find? (fun p => p.1 = name) with
    | none => .error ("savepoint does not exist: " ++ name)
    | some _ => .ok { t with savepoints := t.savepoints.filter (fun p => p.1 ≠ name) }

/-- The operations a caller can apply to a `database.Transaction` after
`Begin`. -/
inductive TxOp
  | execOp (m : Mutation)
  | commitOp (now : Nat)
  | rollbackOp (now : Nat)
  | savepointOp (name : String) (now : Nat)
  | rollbackToOp (name : String)
  | releaseOp (name : String)
  deriving DecidableEq, Repr

/-- Applies one transaction operation; on a refusal (the Go methods return
an error) the transaction is left unchanged. `commitOp` additionally
returns the updated committed store. -/
def stepTx (committed : List ResourceRow) (t : DbTransaction) :
    TxOp → List ResourceRow × DbTransaction
  | .execOp m => (committed, (txExecute t m).toOption.getD t)
  | .commitOp now =>
    match txCommit committed t now with
    | .ok (st, t') => (st, t')
    | .error _ => (committed, t)
  | .rollbackOp now => (committed, (txRollback t now).toOption.getD t)
  | .savepointOp name now => (committed, (txSavepoint t name now).toOption.getD t)
  | .rollbackToOp name => (committed, (txRollbackToSavepoint t name).toOption.getD t)
  | .releaseOp name => (committed, (txReleaseSavepoint t name).toOption.getD t)

/-! ## Resource tree manager: pkg/filesystem/file.go -/

/-- The error shapes of `FileManager` (each constructor is one of the
`fmt.Errorf` wraps of file.go; `inner`/`msg` is the wrapped `%w`). -/
inductive FsError
  | txRequired (op : String)
  | queryFailed (msg : String)
  | unmarshalFailed
  | fileNotFound (path : String)
  | dirQueryFailed (msg : String)
  | dirNotFound (path : String)
  | resourceCheckFailed (msg : String)
  | parentNotFound (inner : FsError)
  | existsCheckFailed (inner : FsError)
  | alreadyExists (path : String)
  | getFileFailed (inner : FsError)
  | execFailed (msg : String)
  deriving DecidableEq, Repr

/-- `filesystem.File`. Go declares `ParentID string` and `Content []byte`
and would crash scanning a NULL; the embedding keeps the column's
optionality, which no file row produced by this code exercises. -/
structure File where
  id : String
  name : String
  parentID : Option String
  path : String
  content : Option String
  metadata : ResourceMetadata
  createdAt : Nat
  modifiedAt : Nat
  transactionID : String
  deriving DecidableEq, Repr

/-- Routes a `resources` SELECT through `tx.Query` when a transaction is
given (observing its staged writes) and through `Connection.Query`
otherwise (observing committed rows only). A finished transaction's
underlying `*sql.Tx` refuses further statements (`sql.ErrTxDone`); the Go
`status` field and the `*sql.Tx`'s done flag change together in
Commit/Rollback, so the status stands for both. -/
def dbQuery (committed : List ResourceRow) (tx : Option DbTransaction)
    (base : ResourceRow → Bool) (o : QueryOptions) : Except String (List ResourceRow) :=
  match tx with
  | some t =>
    if t.status ≠ TransactionStatusActive then
      .error "sql: transaction has already been committed or rolled back"
    else runResourceSelect (txView committed t) base o
  | none => runResourceSelect committed base o

/-- `FileManager.GetFile`: clean the path, select the file row by path
(current only, unless deleted rows are requested), take the first row. -/
def getFile (committed : List ResourceRow) (tx : Option DbTransaction)
    (pathArg : String) (o : QueryOptions) : Except FsError File :=
  let path := filepathClean pathArg
  let base : ResourceRow → Bool := fun r =>
    r.type == "file" && r.path == path && (o.includeDeleted || r.valid_to == none)
  match dbQuery committed tx base o with
  | .error e => .error (.queryFailed e)
  | .ok [] => .error (.fileNotFound path)
  | .ok (row :: _) =>
    match row.metadata with
    | none => .error .unmarshalFailed
    | some md =>
      .ok { id := row.id, name := row.name, parentID := row.parent_id, path := path,
            content := row.content, metadata := md, createdAt := md.createdAt,
            modifiedAt := md.modifiedAt, transactionID := row.transaction_id }

/-- `FileManager.getDirectoryID`: the fixed id `"root"` for `"/"` without
any query; otherwise clean the path and select the directory row. -/
def getDirectoryID (committed : List ResourceRow) (tx : Option DbTransaction)
    (pathArg : String) (o : QueryOptions) : Except FsError String :=
  if pathArg = "/" then .ok "root"
  else
    let path := filepathClean pathArg
    let base : ResourceRow → Bool := fun r =>
      r.type == "directory" && r.path == path && (o.includeDeleted || r.valid_to == none)
    match dbQuery committed tx base o with
    | .error e => .error (.dirQueryFailed e)
    | .ok [] => .error (.dirNotFound path)
    | .ok (row :: _) => .ok row.id

/-- `FileManager.resourceExists`: any row with this name under this parent. -/
def resourceExists (committed : List ResourceRow) (tx : Option DbTransaction)
    (name parentID : String) (o : QueryOptions) : Except FsError Bool :=
  let base : ResourceRow → Bool := fun r =>
    r.name == name && r.parent_id == some parentID && (o.includeDeleted || r.valid_to == none)
  match dbQuery committed tx base o with
  | .error e => .error (.resourceCheckFailed e)
  | .ok rows => .ok (rows.length > 0)

/-- `filesystem.generateResourceID`: `"r-"` plus the clock's nanosecond
count. -/
def generateResourceID (now : Nat) : String := "r-" ++ toString now

/-- `CreateFile`'s suffix-based MIME guess. -/
def mimeForName (name : String) : String :=
  if name.endsWith ".txt" then "text/plain"
  else if name.endsWith ".json" then "application/json"
  else if name.endsWith ".html" then "text/html"
  else "application/octet-stream"

/-- `FileManager.CreateFile`: requires a transaction; cleans and splits the
path; resolves the parent directory (wrapping any failure as "parent
directory not found"); refuses an existing name under the parent; inserts
exactly one new row with an open interval. All clock reads of the call are
the single instant `now`. -/
def createFile (committed : List ResourceRow) (tx : Option DbTransaction)
    (pathArg content owner : String) (now : Nat) :
    Except FsError (DbTransaction × File) :=
  match tx with
  | none => .error (.txRequired "file creation")
  | some t =>
    let path := filepathClean pathArg
    let dir := filepathClean (filepathSplit path).1
    let name := (filepathSplit path).2
    match getDirectoryID committed (some t) dir DefaultQueryOptions with
    | .error e => .error (.parentNotFound e)
    | .ok parentID =>
      match resourceExists committed (some t) name parentID DefaultQueryOptions with
      | .error e => .error (.existsCheckFailed e)
      | .ok true => .error (.alreadyExists path)
      | .ok false =>
        let md0 := NewResourceMetadata owner now
        let md := { md0 with size := content.length, mimeType := mimeForName name }
        let id := generateResourceID now
        let row : ResourceRow :=
          { id := id, type := "file", name := name, parent_id := some parentID,
            path := path, content := some content, metadata := some md,
            valid_from := now, valid_to := none, transaction_id := t.id }
        match txExecute t (.insertRow row) with
        | .error e => .error (.execFailed e)
        | .ok t2 =>
          .ok (t2, { id := id, name := name, parentID := some parentID, path := path,
                     content := some content, metadata := md, createdAt := now,
                     modifiedAt := now, transactionID := t.id })

/-- The successor metadata `UpdateFile` builds: the resolved file's metadata
with `ModifiedAt` and `Size` refreshed (nothing else — in particular the
`Checksum` field is carried over verbatim). -/
def updatedMetadata (file : File) (content : String) (now : Nat) : ResourceMetadata :=
  { file.metadata with modifiedAt := now, size := content.length }

/-- The successor row `UpdateFile` inserts (file.go lines 217-222): a
freshly generated id, the resolved file's name and parent, the new content,
the refreshed metadata, and an open interval starting at `now`. -/
def updateSuccessorRow (file : File) (path content : String) (now : Nat)
    (txid : String) : ResourceRow :=
  { id := generateResourceID now, type := "file", name := file.name,
    parent_id := file.parentID, path := path, content := some content,
    metadata := some (updatedMetadata file content now),
    valid_from := now, valid_to := none, transaction_id := txid }

/-- `FileManager.UpdateFile`: requires a transaction; resolves the current
file through `GetFile` with the default options (wrapping any failure as
"failed to get file"); closes the prior row's open interval at `now` and
inserts the successor row with `valid_from = now`. -/
def updateFile (committed : List ResourceRow) (tx : Option DbTransaction)
    (pathArg content : String) (now : Nat) : Except FsError (DbTransaction × File) :=
  match tx with
  | none => .error (.txRequired "file update")
  | some t =>
    let path := filepathClean pathArg
    match getFile committed (some t) path DefaultQueryOptions with
    | .error e => .error (.getFileFailed e)
    | .ok file =>
      match txExecute t (.closeInterval file.id now) with
      | .error e => .error (.execFailed e)
      | .ok t1 =>
        let row := updateSuccessorRow file path content now t1.id
        match txExecute t1 (.insertRow row) with
        | .error e => .error (.execFailed e)
        | .ok t2 =>
          .ok (t2, { id := row.id, name := file.name, parentID := file.parentID,
                     path := path, content := some content,
                     metadata := updatedMetadata file content now,
                     createdAt := file.createdAt, modifiedAt := now,
                     transactionID := t2.id })

/-- `FileManager.DeleteFile`: requires a transaction; resolves the current
file and closes its interval at `now`, writing no successor. -/
def deleteFile (committed : List ResourceRow) (tx : Option DbTransaction)
    (pathArg : String) (now : Nat) : Except FsError DbTransaction :=
  match tx with
  | none => .error (.txRequired "file deletion")
  | some t =>
    let path := filepathClean pathArg
    match getFile committed (some t) path DefaultQueryOptions with
    | .error e => .error (.getFileFailed e)
    | .ok file =>
      match txExecute t (.closeInterval file.id now) with
      | .error e => .error (.execFailed e)
      | .ok t1 => .ok t1

/-- The order `GetResourceHistory`'s base statement requests:
`ORDER BY r.valid_from DESC`. -/
def histOrder (a b : ResourceRow × TxRecord) : Prop := b.1.valid_from ≤ a.1.valid_from

instance : DecidableRel histOrder := fun a b => by
  unfold histOrder
  infer_instance

/-- The rows of `Connection.GetResourceHistory`'s base statement: resources
joined with their transactions, keyed by the row id (`WHERE r.id = $1`),
newest first. -/
def historyRows (store : List ResourceRow) (txs : List TxRecord)
    (resourceID : String) : List (ResourceRow × TxRecord) :=
  List.insertionSort histOrder
    ((store.filter (fun r => r.id == resourceID)).flatMap
      (fun r => (txs.filter (fun t => t.id == r.transaction_id)).map (fun t => (r, t))))

/-- `Connection.GetResourceHistory`: the base statement already ends in
`ORDER BY r.valid_from DESC`, and `applyQueryOptions` appends its suffixes
after that clause, so a set point-in-time, a nonempty branch filter or a
nonempty order key each produce an unparseable statement. -/
def getResourceHistory (store : List ResourceRow) (txs : List TxRecord)
    (resourceID : String) (o : QueryOptions) :
    Except String (List (ResourceRow × TxRecord)) :=
  if o.pointInTime.isSome ∧ o.temporalCondition = "AS OF" then
    .error "near AS: syntax error"
  else if o.branchID ≠ "" then .error "near AND: syntax error"
  else if o.orderBy ≠ "" then .error "near ORDER: syntax error"
  else .ok (historyRows store txs resourceID)

/-! ## Shell listing: Shell.ListDirectory (src/unnamed/part_003)

The shell issues raw SQL through `ExecuteQuery`, bypassing
`applyQueryOptions`, so these statements prepare and run. -/

/-- The row-visibility condition of the shell's statements: current rows
when no point in time is set, otherwise
`valid_from <= ? AND (valid_to IS NULL OR valid_to > ?)`. -/
def shellVisibleAt (pit : Option Nat) (r : ResourceRow) : Bool :=
  match pit with
  | none => r.valid_to == none
  | some t =>
    decide (r.valid_from ≤ t) &&
      (match r.valid_to with
       | none => true
       | some u => decide (t < u))

/-- The child ordering `ORDER BY type DESC, name ASC` requests: type
strings descending, then names ascending. Descending on the type column
puts `"symlink"` before `"file"` before `"directory"`. -/
def childOrder (a b : ResourceRow) : Prop :=
  strLt b.type a.type ∨ (a.type = b.type ∧ strLe a.name b.name)

instance : DecidableRel childOrder := fun a b => by
  unfold childOrder
  infer_instance

instance : IsTotal ResourceRow childOrder :=
  ⟨fun a b => by
    unfold childOrder
    rcases strLt_trichotomy a.type b.type with h | h | h
    · exact Or.inr (Or.inl h)
    · rcases strLe_total a.name b.name with h2 | h2
      · exact Or.inl (Or.inr ⟨h, h2⟩)
      · exact Or.inr (Or.inr ⟨h.symm, h2⟩)
    · exact Or.inl (Or.inl h)⟩

instance : IsTrans ResourceRow childOrder :=
  ⟨fun a b c hab hbc => by
    unfold childOrder at *
    rcases hab with h1 | ⟨h1, h1'⟩ <;> rcases hbc with h2 | ⟨h2, h2'⟩
    · exact Or.inl (lexLtB_trans h2 h1)
    · exact Or.inl (h2 ▸ h1)
    · exact Or.inl (by rw [h1]; exact h2)
    · exact Or.inr ⟨h1.trans h2, strLe_trans h1' h2'⟩⟩

/-- The children listing of `Shell.ListDirectory` (lines 396-411): rows
under the directory id that are visible at the shell's point in time,
ordered by `type DESC, name ASC`. -/
def listChildren (store : List ResourceRow) (dirID : String) (pit : Option Nat) :
    List ResourceRow :=
  List.insertionSort childOrder
    (store.filter (fun r => r.parent_id == some dirID && shellVisibleAt pit r))

/-- `Shell.ListDirectory` outside a transaction: clean the path, resolve
the directory row, then list its children. -/
def shellListDirectory (store : List ResourceRow) (pathArg : String)
    (pit : Option Nat) : Except String (List ResourceRow) :=
  let path := filepathClean pathArg
  match (store.filter (fun r =>
      r.type == "directory" && r.path == path && shellVisibleAt pit r)).head? with
  | none => .error ("directory not found: " ++ path)
  | some d => .ok (listChildren store d.id pit)

/-! ## Branch resolution, modelled from the spec

Branch-aware resolution is unimplemented in the source:
`Shell.ManageBranch` and `Shell.SwitchBranch` are stubs, and the
`resources` schema records no branch tag at all, so only the spec's §4.3
describes the resolver the `branches` table and the `BranchID` query
option were declared for. -/

/-- Modelled from the spec: a branch-tagged version row as §4.3's resolver
reads it (missing from the source, which tags no version with a branch). -/
structure SpecVersion where
  resourceId : String
  branchId : String
  path : String
  validFrom : Nat
  validTo : Option Nat
  deriving DecidableEq, Repr

/-- Modelled from the spec: a `Branch` row reduced to what resolution uses —
its id, its parent branch, and its fork instant (`base_state_id`'s commit
time); `none` for the root branch. -/
structure SpecBranch where
  id : String
  parentId : Option String
  baseTime : Nat
  deriving DecidableEq, Repr

/-- A version is valid at instant `t` when `valid_from <= t` and `t` is
before its close (an open interval is current). -/
def specValidAt (t : Nat) (v : SpecVersion) : Bool :=
  decide (v.validFrom ≤ t) &&
    (match v.validTo with
     | none => true
     | some u => decide (t < u))

/-- Branch lookup by id. -/
def lookupBranch (bs : List SpecBranch) (bid : String) : Option SpecBranch :=
  bs.find? (fun b => b.id == bid)

/-- Modelled from the spec: §4.3's resolution. Look up the version directly
recorded under the branch valid at the instant; if none exists and the
instant is at or before the branch's fork point, recurse into the parent
branch evaluated at `min(instant, fork time)`; report absence at the root.
`fuel` bounds the ancestry depth (§4.3 requires bounded depth). -/
def resolveVersion (store : List SpecVersion) (bs : List SpecBranch)
    (path bid : String) (t : Nat) : Nat → Option SpecVersion
  | 0 => none
  | fuel + 1 =>
    match store.find? (fun v => v.branchId == bid && v.path == path && specValidAt t v) with
    | some v => some v
    | none =>
      match lookupBranch bs bid with
      | none => none
      | some b =>
        match b.parentId with
        | none => none
        | some p =>
          if t ≤ b.baseTime then resolveVersion store bs path p (min t b.baseTime) fuel
          else none

/-! ## Concrete fixtures

A committed store as `applyInitialSchema` leaves it (root and a standard
directory, created at instant 10 by transaction "init"), plus per-scenario
rows. -/

/-- Directory metadata the schema initialisation writes. -/
def initMetadata : ResourceMetadata := NewDirectoryMetadata "system" 10

/-- The root directory row (id "root") of `applyInitialSchema`. -/
def rootRow : ResourceRow :=
  { id := "root", type := "directory", name := "/", parent_id := none, path := "/",
    content := none, metadata := some initMetadata, valid_from := 10,
    valid_to := none, transaction_id := "init" }

/-- The `/home` standard directory row of `applyInitialSchema`. -/
def homeRow : ResourceRow :=
  { id := "dir-home", type := "directory", name := "home", parent_id := some "root",
    path := "/home", content := none, metadata := some initMetadata, valid_from := 10,
    valid_to := none, transaction_id := "init" }

/-- A freshly initialised committed store. -/
def initStore : List ResourceRow := [rootRow, homeRow]

/-- An open-interval version of `/b.txt` as Alice's transaction stages it. -/
def c1RowAlice : ResourceRow :=
  { id := "r-201", type := "file", name := "b.txt", parent_id := some "root",
    path := "/b.txt", content := some "hi",
    metadata := some { NewResourceMetadata "alice" 201 with size := 2, mimeType := "text/plain" },
    valid_from := 201, valid_to := none, transaction_id := "t-alice" }

/-- An open-interval version of `/b.txt` as Bob's transaction stages it. -/
def c1RowBob : ResourceRow :=
  { id := "r-202", type := "file", name := "b.txt", parent_id := some "root",
    path := "/b.txt", content := some "bye",
    metadata := some { NewResourceMetadata "bob" 202 with size := 3, mimeType := "text/plain" },
    valid_from := 202, valid_to := none, transaction_id := "t-bob" }

/-- Alice's transaction with her `/b.txt` version staged. -/
def c1TxAlice : DbTransaction :=
  { beginTransaction "t-alice" 200 "main" "alice" with staged := [.insertRow c1RowAlice] }

/-- Bob's transaction with his `/b.txt` version staged. -/
def c1TxBob : DbTransaction :=
  { beginTransaction "t-bob" 200 "main" "bob" with staged := [.insertRow c1RowBob] }

/-! ## Claim C1 -/

/-- C1, counterexample: two transactions on branch `main` each stage a
version opening an interval for the same path `/b.txt`; the first commit
succeeds and the second commit also succeeds — `Transaction.Commit`
raises no `ConflictError` — and afterwards both staged rows are visible as
open intervals for the same path. -/
theorem commit_conflict_counterexample :
    txExecute (beginTransaction "t-alice" 200 "main" "alice") (.insertRow c1RowAlice) =
      .ok c1TxAlice ∧
    txExecute (beginTransaction "t-bob" 200 "main" "bob") (.insertRow c1RowBob) =
      .ok c1TxBob ∧
    txCommit initStore c1TxAlice 210 =
      .ok (initStore ++ [c1RowAlice],
        { c1TxAlice with status := TransactionStatusCommitted, endTime := 210 }) ∧
    txCommit (initStore ++ [c1RowAlice]) c1TxBob 211 =
      .ok (initStore ++ [c1RowAlice] ++ [c1RowBob],
        { c1TxBob with status := TransactionStatusCommitted, endTime := 211 }) ∧
    (initStore ++ [c1RowAlice] ++ [c1RowBob]).filter
        (fun r => r.path == "/b.txt" && r.valid_to == none) = [c1RowAlice, c1RowBob] :=
  ⟨rfl, rfl, rfl, rfl, rfl⟩

/-- C1, amended: `Transaction.Commit` performs no open-interval
re-validation of any kind: committing any active transaction succeeds
unconditionally — regardless of what a concurrently committed transaction
added to the store — applying the staged writes verbatim; in the spec's
two-creates race both committers therefore win and two open intervals for
the same path result. -/
theorem commit_performs_no_validation (committed : List ResourceRow)
    (t : DbTransaction) (now : Nat) (h : t.status = TransactionStatusActive) :
    txCommit committed t now =
      .ok (t.staged.foldl applyMutation committed,
        { t with status := TransactionStatusCommitted, endTime := now }) := by
  unfold txCommit
  rw [if_neg (by simp [h])]

/-- C1, witness for `commit_performs_no_validation` at Bob's transaction
against the store that already holds Alice's committed open interval. -/
theorem commit_performs_no_validation_witness :
    txCommit (initStore ++ [c1RowAlice]) c1TxBob 211 =
      .ok (c1TxBob.staged.foldl applyMutation (initStore ++ [c1RowAlice]),
        { c1TxBob with status := TransactionStatusCommitted, endTime := 211 }) :=
  commit_performs_no_validation (initStore ++ [c1RowAlice]) c1TxBob 211 rfl

/-! ## Claim C7 -/

/-- C7, counterexample: rolling back a fresh transaction sets the status
string to `"rolled_back"` (transaction.go's `TransactionStatusRolledBack`),
which is not one of the claimed values `active`, `committed`, `aborted` —
the code's third status constant differs from the spec's (and from the
schema package's own `TransactionStatusAborted = "aborted"`). -/
theorem rollback_status_string_counterexample :
    (stepTx [] (beginTransaction "t1" 5 "main" "alice") (.rollbackOp 6)).2.status =
      "rolled_back" ∧
    "rolled_back" ∉ ["active", "committed", "aborted"] :=
  ⟨rfl, by decide⟩

/-- C7, amended: every transaction's status is always one of `active`,
`committed`, `rolled_back` (the code's name for the aborted state);
`rollback()` on an active transaction flips the status to `rolled_back`;
and `committed`/`rolled_back` are terminal — any further operation is
refused and changes neither the transaction nor the store. -/
theorem transaction_status_machine (committed : List ResourceRow)
    (t : DbTransaction) (op : TxOp) (now : Nat)
    (h : t.status ∈ [TransactionStatusActive, TransactionStatusCommitted,
      TransactionStatusRolledBack]) :
    (stepTx committed t op).2.status ∈ [TransactionStatusActive,
      TransactionStatusCommitted, TransactionStatusRolledBack] ∧
    (t.status = TransactionStatusActive →
      (stepTx committed t (.rollbackOp now)).2.status = TransactionStatusRolledBack) ∧
    (t.status ≠ TransactionStatusActive → stepTx committed t op = (committed, t)) := by
  by_cases ha : t.status = TransactionStatusActive
  · refine ⟨?_, ?_, fun hn => absurd ha hn⟩
    · cases op with
      | execOp m => simp [stepTx, txExecute, ha, Except.toOption]
      | commitOp n => simp [stepTx, txCommit, ha, Except.toOption]
      | rollbackOp n => simp [stepTx, txRollback, ha, Except.toOption]
      | savepointOp name n => simp [stepTx, txSavepoint, ha, Except.toOption]
      | rollbackToOp name =>
        cases hf : t.savepoints.find? (fun p => p.1 = name) with
        | none => simp [stepTx, txRollbackToSavepoint, ha, hf, h, Except.toOption]
        | some p => simp [stepTx, txRollbackToSavepoint, ha, hf, h, Except.toOption]
      | releaseOp name =>
        cases hf : t.savepoints.find? (fun p => p.1 = name) with
        | none => simp [stepTx, txReleaseSavepoint, ha, hf, h, Except.toOption]
        | some p => simp [stepTx, txReleaseSavepoint, ha, hf, h, Except.toOption]
    · intro _
      simp [stepTx, txRollback, ha, Except.toOption]
  · have hstep : stepTx committed t op = (committed, t) := by
      cases op with
      | execOp m => simp [stepTx, txExecute, ha, Except.toOption]
      | commitOp n => simp [stepTx, txCommit, ha, Except.toOption]
      | rollbackOp n => simp [stepTx, txRollback, ha, Except.toOption]
      | savepointOp name n => simp [stepTx, txSavepoint, ha, Except.toOption]
      | rollbackToOp name => simp [stepTx, txRollbackToSavepoint, ha, Except.toOption]
      | releaseOp name => simp [stepTx, txReleaseSavepoint, ha, Except.toOption]
    refine ⟨?_, fun hact => absurd hact ha, fun _ => hstep⟩
    rw [hstep]
    exact h

/-- A transaction that has already committed. -/
def c7CommittedTx : DbTransaction :=
  { beginTransaction "t1" 5 "main" "alice" with status := TransactionStatusCommitted }

/-- C7, witness for `transaction_status_machine`: a committed transaction
refuses a further rollback and keeps its status. -/
theorem transaction_status_machine_witness :
    (stepTx [] c7CommittedTx (.rollbackOp 7)).2.status ∈
      [TransactionStatusActive, TransactionStatusCommitted,
        TransactionStatusRolledBack] ∧
    stepTx [] c7CommittedTx (.rollbackOp 7) = ([], c7CommittedTx) :=
  ⟨(transaction_status_machine [] c7CommittedTx (.rollbackOp 7) 7 (by decide)).1,
   (transaction_status_machine [] c7CommittedTx (.rollbackOp 7) 7 (by decide)).2.2
     (by decide)⟩

/-! ## Claim C8 -/

/-- C8, counterexample: `CreateFile` with an absent transaction handle is
rejected outright with "transaction required", rather than auto-wrapped —
and in particular does not behave as the same call inside an explicit
transaction, which fails differently (here with the parent-lookup query
error). -/
theorem create_requires_transaction_counterexample :
    createFile initStore none "/home/notes.txt" "hi" "alice" 101 =
      .error (.txRequired "file creation") ∧
    createFile initStore (some (beginTransaction "t1" 100 "main" "alice"))
        "/home/notes.txt" "hi" "alice" 101 =
      .error (.parentNotFound (.dirQueryFailed "no such column: branch_id")) ∧
    FsError.txRequired "file creation" ≠
      FsError.parentNotFound (.dirQueryFailed "no such column: branch_id") :=
  ⟨rfl, rfl, by decide⟩

/-- C8, amended: the mutating resource-tree operations require an explicit
transaction handle: with an absent handle `CreateFile`, `UpdateFile` and
`DeleteFile` each fail immediately with a "transaction required" error and
no auto-wrapped single-operation transaction is opened. -/
theorem mutating_ops_require_transaction (committed : List ResourceRow)
    (path content owner : String) (now : Nat) :
    createFile committed none path content owner now =
      .error (.txRequired "file creation") ∧
    updateFile committed none path content now = .error (.txRequired "file update") ∧
    deleteFile committed none path now = .error (.txRequired "file deletion") :=
  ⟨rfl, rfl, rfl⟩

/-- Any `resources` SELECT issued through an active transaction with
`DefaultQueryOptions` fails to prepare: the appended branch filter
references the `branch_id` column the table does not have. -/
theorem dbQuery_default_branch_error (committed : List ResourceRow)
    (t : DbTransaction) (base : ResourceRow → Bool)
    (h : t.status = TransactionStatusActive) :
    dbQuery committed (some t) base DefaultQueryOptions =
      .error "no such column: branch_id" := by
  simp only [dbQuery, runResourceSelect]
  rw [if_neg (by simp [h]), if_neg (by simp [DefaultQueryOptions]),
    if_pos (by simp [DefaultQueryOptions])]

/-! ## Claim C9 -/

/-- C9: resolving the parent directory id of `"/"` answers the fixed id
`"root"` without reading any stored data, for every transaction handle and
query options; hence a create whose parent directory is `"/"` can never
fail with the parent-not-found wrap, whatever the store holds. -/
theorem root_parent_resolution (committed : List ResourceRow)
    (tx : Option DbTransaction) (o : QueryOptions) (t : DbTransaction)
    (path content owner : String) (now : Nat)
    (h : filepathClean (filepathSplit (filepathClean path)).1 = "/") :
    getDirectoryID committed tx "/" o = .ok "root" ∧
    ∀ e, createFile committed (some t) path content owner now ≠
      .error (.parentNotFound e) := by
  constructor
  · unfold getDirectoryID
    rw [if_pos rfl]
  · intro e
    simp only [createFile]
    rw [h]
    rw [show getDirectoryID committed (some t) "/" DefaultQueryOptions = .ok "root" from by
      unfold getDirectoryID; rw [if_pos rfl]]
    split
    · simp_all
    · split
      · simp
      · simp
      · split
        · simp
        · simp

/-- C9, witness for `root_parent_resolution` at a root-level create. -/
theorem root_parent_resolution_witness :
    getDirectoryID initStore none "/" DefaultQueryOptions = .ok "root" ∧
    createFile initStore (some (beginTransaction "t9" 50 "main" "alice"))
        "/a.txt" "hi" "alice" 51 ≠
      .error (.parentNotFound (.dirNotFound "/")) :=
  ⟨(root_parent_resolution initStore none DefaultQueryOptions
      (beginTransaction "t9" 50 "main" "alice") "/a.txt" "hi" "alice" 51 (by decide)).1,
   (root_parent_resolution initStore none DefaultQueryOptions
      (beginTransaction "t9" 50 "main" "alice") "/a.txt" "hi" "alice" 51 (by decide)).2
     (.dirNotFound "/")⟩

/-! ## Claim C10 -/

/-- C10: `GetFile`, `CreateFile`, `UpdateFile` and `DeleteFile` all start by
normalising their path with `filepath.Clean`, so each operation applied to
`p` and to `filepath.Clean(p)` resolves the same resource and produces the
same result (by idempotence of `Clean`). -/
theorem ops_normalize_paths (committed : List ResourceRow)
    (tx : Option DbTransaction) (p content owner : String) (o : QueryOptions)
    (now : Nat) :
    getFile committed tx p o = getFile committed tx (filepathClean p) o ∧
    createFile committed tx p content owner now =
      createFile committed tx (filepathClean p) content owner now ∧
    updateFile committed tx p content now =
      updateFile committed tx (filepathClean p) content now ∧
    deleteFile committed tx p now = deleteFile committed tx (filepathClean p) now := by
  refine ⟨?_, ?_, ?_, ?_⟩
  · simp only [getFile, filepathClean_idem]
  · simp only [createFile, filepathClean_idem]
  · simp only [updateFile, filepathClean_idem]
  · simp only [deleteFile, filepathClean_idem]

/-! ## Claim C4 -/

/-- An open current version of `/a.txt`, committed by transaction "t-old". -/
def c4FileRow : ResourceRow :=
  { id := "r-100", type := "file", name := "a.txt", parent_id := some "root",
    path := "/a.txt", content := some "hi",
    metadata := some
      { NewResourceMetadata "alice" 100 with
        size := 2, mimeType := "text/plain", checksum := "sum-of-hi" },
    valid_from := 100, valid_to := none, transaction_id := "t-old" }

/-- A committed store holding a current version of `/a.txt`. -/
def c4Store : List ResourceRow := [rootRow, c4FileRow]

/-- C4, counterexample: a current version of `/a.txt` exists, yet
`update("/a.txt", "bye2")` does not close its interval and write a
successor — it fails, because resolving the current version goes through a
query whose appended branch filter names the nonexistent `branch_id`
column. -/
theorem update_fails_despite_current_version :
    (c4Store.filter fun r => r.type == "file" && r.path == "/a.txt" &&
      r.valid_to == none) = [c4FileRow] ∧
    updateFile c4Store (some (beginTransaction "t2" 200 "main" "bob"))
        "/a.txt" "bye2" 201 =
      .error (.getFileFailed (.queryFailed "no such column: branch_id")) :=
  ⟨rfl, rfl⟩

/-- C4, amended: every `UpdateFile` call through an active transaction
fails with the "failed to get file" wrap of the branch-filter query error
and stages nothing — the close-interval/successor logic (which would reuse
the single instant `now` for the closed `valid_to` and the successor's
`valid_from`, refreshing size and modified-time but never the checksum) is
unreachable; when no current version exists the call fails with this same
query error rather than a clean not-found. -/
theorem updateFile_always_query_error (committed : List ResourceRow)
    (t : DbTransaction) (path content : String) (now : Nat)
    (h : t.status = TransactionStatusActive) :
    updateFile committed (some t) path content now =
      .error (.getFileFailed (.queryFailed "no such column: branch_id")) := by
  simp only [updateFile, getFile]
  rw [dbQuery_default_branch_error committed t _ h]

/-- C4, witness for `updateFile_always_query_error` on the store with a
live `/a.txt`. -/
theorem updateFile_always_query_error_witness :
    updateFile c4Store (some (beginTransaction "t2" 200 "main" "bob"))
        "/a.txt" "bye2" 201 =
      .error (.getFileFailed (.queryFailed "no such column: branch_id")) :=
  updateFile_always_query_error c4Store (beginTransaction "t2" 200 "main" "bob")
    "/a.txt" "bye2" 201 rfl

/-! ## Claim C5 -/

/-- C5: the claim describes `CreateFile`'s intended trichotomy (parent
missing, name collision, else one open-interval insert) — exactly the
checks file.go spells out — but the code cannot execute it: both the
parent lookup and the existence check go through queries whose appended
branch filter names the nonexistent `branch_id` column, so `CreateFile`
fails for every input. Here `/home` exists and `/home/notes.txt` does not,
yet the create reports "parent directory not found" wrapping the query
error; and a root-level create dies at the existence check. -/
theorem createFile_branch_filter_code_bug :
    (initStore.filter fun r => r.type == "directory" && r.path == "/home" &&
      r.valid_to == none) = [homeRow] ∧
    (initStore.filter fun r => r.path == "/home/notes.txt") = [] ∧
    createFile initStore (some (beginTransaction "t1" 100 "main" "alice"))
        "/home/notes.txt" "hi" "alice" 101 =
      .error (.parentNotFound (.dirQueryFailed "no such column: branch_id")) ∧
    createFile initStore (some (beginTransaction "t1" 100 "main" "alice"))
        "/a.txt" "hi" "alice" 101 =
      .error (.existsCheckFailed (.resourceCheckFailed "no such column: branch_id")) :=
  ⟨rfl, rfl, rfl, rfl⟩

/-! ## Claim C3 -/

/-- The `File` value `GetFile` would produce for `c4FileRow`, as
`UpdateFile` resolves the version it replaces. -/
def c3File : File :=
  { id := "r-100", name := "a.txt", parentID := some "root", path := "/a.txt",
    content := some "hi",
    metadata :=
      { NewResourceMetadata "alice" 100 with
        size := 2, mimeType := "text/plain", checksum := "sum-of-hi" },
    createdAt := 100, modifiedAt := 100, transactionID := "t-old" }

/-- The successor row the update logic builds for `c3File` at instant 200
inside transaction "t2". -/
def c3Succ : ResourceRow := updateSuccessorRow c3File "/a.txt" "bye2" 200 "t2"

/-- The committed transaction that wrote `c4FileRow`. -/
def c3TxOld : TxRecord :=
  { id := "t-old", start_time := 90, end_time := some 95, status := "committed",
    user_id := "alice", branch_id := "main" }

/-- The committed transaction that wrote the successor. -/
def c3TxNew : TxRecord :=
  { id := "t2", start_time := 190, end_time := some 205, status := "committed",
    user_id := "bob", branch_id := "main" }

/-- C3, counterexample: the successor row built for version `r-100` of
`/a.txt` carries the freshly generated id `r-200`, not the replaced
version's id; and the history query keyed by `r-100` returns only that one
version, not the chain with its successor (which shares only the path). -/
theorem update_fresh_id_counterexample :
    (updateSuccessorRow c3File "/a.txt" "bye2" 200 "t2").id = "r-200" ∧
    c4FileRow.id = "r-100" ∧ ("r-200" : String) ≠ "r-100" ∧
    getResourceHistory [c4FileRow, c3Succ] [c3TxOld, c3TxNew] "r-100"
      unfilteredOptions = .ok [(c4FileRow, c3TxOld)] ∧
    c3Succ.path = c4FileRow.path :=
  ⟨rfl, rfl, by decide, rfl, rfl⟩

/-- C3, amended: the successor version `UpdateFile` builds carries the
freshly generated id `r-<now>` — distinct from the replaced version's id
whenever that id differs from `r-<now>` — and `GetResourceHistory` keyed by
a version id returns only rows bearing exactly that id, so versions of one
file share no stable identity (they are linked only by equal path). -/
theorem update_successor_fresh_identity (file : File) (path content : String)
    (now : Nat) (txid : String) (store : List ResourceRow) (txs : List TxRecord)
    (rid : String) (pr : ResourceRow × TxRecord)
    (hid : file.id ≠ generateResourceID now)
    (hpr : pr ∈ historyRows store txs rid) :
    (updateSuccessorRow file path content now txid).id = generateResourceID now ∧
    (updateSuccessorRow file path content now txid).id ≠ file.id ∧
    pr.1.id = rid := by
  refine ⟨rfl, ?_, ?_⟩
  · intro heq
    exact hid heq.symm
  · unfold historyRows at hpr
    rw [List.mem_insertionSort] at hpr
    simp only [List.mem_flatMap, List.mem_map, List.mem_filter] at hpr
    obtain ⟨r, ⟨-, hrid⟩, tr, ⟨-, -⟩, heq⟩ := hpr
    rw [← heq]
    simpa using hrid

/-- C3, witness for `update_successor_fresh_identity` at the concrete
two-version history. -/
theorem update_successor_fresh_identity_witness :
    (updateSuccessorRow c3File "/a.txt" "bye2" 200 "t2").id =
      generateResourceID 200 ∧
    (updateSuccessorRow c3File "/a.txt" "bye2" 200 "t2").id ≠ c3File.id ∧
    (c4FileRow, c3TxOld).1.id = "r-100" :=
  update_successor_fresh_identity c3File "/a.txt" "bye2" 200 "t2"
    [c4FileRow, c3Succ] [c3TxOld, c3TxNew] "r-100" (c4FileRow, c3TxOld)
    (by decide) (by decide)

/-! ## Claim C6 -/

/-- A directory `adir` under root. -/
def c6DirRow : ResourceRow :=
  { id := "dir-z", type := "directory", name := "adir", parent_id := some "root",
    path := "/adir", content := none, metadata := some initMetadata,
    valid_from := 10, valid_to := none, transaction_id := "init" }

/-- A file `bfile.txt` under root. -/
def c6FileRow : ResourceRow :=
  { id := "f-1", type := "file", name := "bfile.txt", parent_id := some "root",
    path := "/bfile.txt", content := some "x",
    metadata := some (NewResourceMetadata "alice" 20), valid_from := 20,
    valid_to := none, transaction_id := "t-c6" }

/-- A store with one directory and one file under root. -/
def c6Store : List ResourceRow := [rootRow, c6DirRow, c6FileRow]

/-- C6, counterexample: listing `/` returns the file `bfile.txt` before the
directory `adir` — `ORDER BY type DESC` sorts the type strings descending,
so `"file"` precedes `"directory"`, the opposite of the claimed
directories-before-files order. -/
theorem list_order_counterexample :
    shellListDirectory c6Store "/" none = .ok [c6FileRow, c6DirRow] ∧
    c6FileRow.type = "file" ∧ c6DirRow.type = "directory" :=
  ⟨rfl, rfl, rfl⟩

/-- C6, amended: the children listing is ordered by the type string
descending — symlinks, then files, then directories — and by name
ascending within each type, and contains exactly the directory's visible
children. -/
theorem listChildren_ordering (store : List ResourceRow) (dirID : String)
    (pit : Option Nat) :
    List.Sorted childOrder (listChildren store dirID pit) ∧
    (listChildren store dirID pit).Perm
      (store.filter fun r => r.parent_id == some dirID && shellVisibleAt pit r) :=
  ⟨List.sorted_insertionSort childOrder _, List.perm_insertionSort childOrder _⟩

/-! ## Claim C2 -/

/-- What a successful direct lookup inside `resolveVersion` guarantees about
the found version. -/
theorem find_version_spec {store : List SpecVersion} {path bid : String} {t : Nat}
    {w : SpecVersion}
    (h : store.find? (fun v => v.branchId == bid && v.path == path &&
      specValidAt t v) = some w) : w.branchId = bid ∧ specValidAt t w = true := by
  have hw := List.find?_some h
  simp only [Bool.and_eq_true, beq_iff_eq] at hw
  exact ⟨hw.1.1, hw.2⟩

/-- Resolution against a root branch (no parent) only ever answers versions
tagged with that branch and valid at the evaluated instant. -/
theorem resolve_root_branch_spec {store : List SpecVersion} {bs : List SpecBranch}
    {path : String} {bM : SpecBranch} (hM : lookupBranch bs "main" = some bM)
    (hMroot : bM.parentId = none) :
    ∀ fuel t' v, resolveVersion store bs path "main" t' fuel = some v →
      v.branchId = "main" ∧ specValidAt t' v = true := by
  intro fuel t' v h
  cases fuel with
  | zero => exact absurd h (by simp [resolveVersion])
  | succ fuel =>
    simp only [resolveVersion] at h
    split at h
    · rename_i w hw
      obtain rfl : w = v := by injection h
      exact find_version_spec hw
    · rw [hM] at h
      simp only [hMroot] at h
      exact absurd h (by simp)

/-- C2 (modelled from the spec, §4.3): for a branch `B` forked from `main`
at instant `T0`, with `main` a root branch, a version recorded on `main`
strictly after `T0` is never the answer of any resolution against `B`, and
a version recorded on `B` is never the answer of any resolution against
`main`. -/
theorem branch_isolation_spec_model (store : List SpecVersion)
    (bs : List SpecBranch) (bB bM : SpecBranch) (T0 : Nat) (v : SpecVersion)
    (path : String) (t fuel : Nat)
    (hB : lookupBranch bs "B" = some bB) (hBparent : bB.parentId = some "main")
    (hBbase : bB.baseTime = T0)
    (hM : lookupBranch bs "main" = some bM) (hMroot : bM.parentId = none) :
    (v.branchId = "main" → T0 < v.validFrom →
      resolveVersion store bs path "B" t fuel ≠ some v) ∧
    (v.branchId = "B" → resolveVersion store bs path "main" t fuel ≠ some v) := by
  constructor
  · intro hvb hvf hcontra
    cases fuel with
    | zero => simp [resolveVersion] at hcontra
    | succ fuel =>
      simp only [resolveVersion] at hcontra
      split at hcontra
      · rename_i w hw
        obtain rfl : w = v := by injection hcontra
        obtain ⟨h1, _⟩ := find_version_spec hw
        rw [hvb] at h1
        exact absurd h1 (by decide)
      · simp only [hB, hBparent, hBbase] at hcontra
        split at hcontra
        · obtain ⟨_, hval⟩ := resolve_root_branch_spec hM hMroot fuel (min t T0) v hcontra
          simp only [specValidAt, Bool.and_eq_true, decide_eq_true_eq] at hval
          have hle : v.validFrom ≤ T0 := le_trans hval.1 (min_le_right t T0)
          omega
        · exact absurd hcontra (by simp)
  · intro hvb hcontra
    obtain ⟨h1, _⟩ := resolve_root_branch_spec hM hMroot fuel t v hcontra
    rw [hvb] at h1
    exact absurd h1 (by decide)

/-- Branch `B` forked from `main` at instant 5. -/
def c2BranchB : SpecBranch := { id := "B", parentId := some "main", baseTime := 5 }

/-- The root branch `main`. -/
def c2BranchMain : SpecBranch := { id := "main", parentId := none, baseTime := 0 }

/-- A version written to `main` at instant 7, after the fork. -/
def c2Vmain : SpecVersion :=
  { resourceId := "r1", branchId := "main", path := "/a.txt", validFrom := 7,
    validTo := none }

/-- A version written to branch `B` at instant 8. -/
def c2VB : SpecVersion :=
  { resourceId := "r2", branchId := "B", path := "/b.txt", validFrom := 8,
    validTo := none }

/-- The two branches of the isolation scenario. -/
def c2Branches : List SpecBranch := [c2BranchB, c2BranchMain]

/-- The two versions of the isolation scenario. -/
def c2Store : List SpecVersion := [c2Vmain, c2VB]

/-- C2, witness for `branch_isolation_spec_model` at the concrete fork. -/
theorem branch_isolation_spec_model_witness :
    resolveVersion c2Store c2Branches "/a.txt" "B" 9 2 ≠ some c2Vmain ∧
    resolveVersion c2Store c2Branches "/b.txt" "main" 9 2 ≠ some c2VB :=
  ⟨(branch_isolation_spec_model c2Store c2Branches c2BranchB c2BranchMain 5 c2Vmain
      "/a.txt" 9 2 rfl rfl rfl rfl rfl).1 rfl (by decide),
   (branch_isolation_spec_model c2Store c2Branches c2BranchB c2BranchMain 5 c2VB
      "/b.txt" 9 2 rfl rfl rfl rfl rfl).2 rfl⟩

end StoneOS
